import Mathlib

/-!
Verification of the HTTP/3 frame codec (`internal/http3/frames.go`).

A shallow embedding of the frame dispatcher and the SETTINGS / GOAWAY codecs
of `internal/http3/frames.go`, together with proofs of the specified
properties.  Byte streams are modelled as `List Nat` (each element one byte),
64-bit unsigned integers as `Nat`, Go's `error` results as an explicit `Err`
inductive, and the stateful reader as explicit stream passing: every read
returns the unread remainder of the stream.
-/

namespace Http3

/-!
The varint primitives live in the `quic-go/quicvarint` dependency of the
repository (not part of its own sources); the spec describes the encoding in
section 4.1 step 1 (prefix-selected width 1/2/4/8, big-endian within the
width), and the models below follow that scheme as `quicvarint` implements
it.
-/

/-- Go's `uint8(x)` conversion: truncation to one byte. -/
def uint8 (x : Nat) : Nat := x % 256

/-- Largest value of a 1-byte QUIC varint (`quicvarint.maxVarInt1`). -/
def maxVarInt1 : Nat := 63
/-- Largest value of a 2-byte QUIC varint (`quicvarint.maxVarInt2`). -/
def maxVarInt2 : Nat := 16383
/-- Largest value of a 4-byte QUIC varint (`quicvarint.maxVarInt4`). -/
def maxVarInt4 : Nat := 1073741823
/-- Largest value of an 8-byte QUIC varint (`quicvarint.maxVarInt8`). -/
def maxVarInt8 : Nat := 4611686018427387903

/-- Model of `quicvarint.Len`: the number of bytes of the minimal varint encoding.
The Go implementation panics for values above `maxVarInt8`; the model returns
`0` there, and every use in this development is under the bound. -/
def varintLen (v : Nat) : Nat :=
  if v ≤ maxVarInt1 then 1
  else if v ≤ maxVarInt2 then 2
  else if v ≤ maxVarInt4 then 4
  else if v ≤ maxVarInt8 then 8
  else 0

/-- Model of `quicvarint.Append`: append the minimal varint encoding of `v` to `b`.
The Go implementation panics for values above `maxVarInt8`; the model returns
`b` unchanged there, and every use in this development is under the bound. -/
def appendVarint (b : List Nat) (v : Nat) : List Nat :=
  if v ≤ maxVarInt1 then b ++ [uint8 v]
  else if v ≤ maxVarInt2 then b ++ [uint8 (v >>> 8) ||| 0x40, uint8 v]
  else if v ≤ maxVarInt4 then
    b ++ [uint8 (v >>> 24) ||| 0x80, uint8 (v >>> 16), uint8 (v >>> 8), uint8 v]
  else if v ≤ maxVarInt8 then
    b ++ [uint8 (v >>> 56) ||| 0xc0, uint8 (v >>> 48), uint8 (v >>> 40),
          uint8 (v >>> 32), uint8 (v >>> 24), uint8 (v >>> 16), uint8 (v >>> 8), uint8 v]
  else b

/-- Errors produced by the codec.  `eof` is `io.EOF`, `unexpectedEOF` is
`io.ErrUnexpectedEOF`, `hijacked` is `errHijacked`; `custom n` stands for an
arbitrary error value supplied by the unknown-frame handler. -/
inductive Err where
  | eof
  | unexpectedEOF
  | oversizedSettings (l : Nat)
  | duplicateSetting (id : Nat)
  | invalidSettingValue (id val : Nat)
  | reservedFrameType (t : Nat)
  | inconsistentGoAwayLength
  | hijacked
  | custom (n : Nat)
  deriving DecidableEq, Repr

/-- Model of `quicvarint.Read` over the list model of a byte stream: a failing
`ReadByte` (empty stream) yields `io.EOF`.  On success the value and the
unread remainder of the stream are returned.  As in the source, the total
width is `len = 1 << ((firstByte & 0xc0) >> 6)` and the remaining bytes are
accumulated big-endian below the 6 value bits of the first byte. -/
def readVarint (s : List Nat) : Except Err (Nat × List Nat) :=
  match s with
  | [] => .error .eof
  | b1 :: t1 =>
    let len := 1 <<< ((b1 &&& 0xc0) >>> 6)
    let v1 := b1 &&& (0xff - 0xc0)
    if len = 1 then .ok (v1, t1)
    else if len = 2 then
      match t1 with
      | b2 :: t2 => .ok (b2 + v1 <<< 8, t2)
      | _ => .error .eof
    else if len = 4 then
      match t1 with
      | b2 :: b3 :: b4 :: t4 => .ok (b4 + b3 <<< 8 + b2 <<< 16 + v1 <<< 24, t4)
      | _ => .error .eof
    else
      match t1 with
      | b2 :: b3 :: b4 :: b5 :: b6 :: b7 :: b8 :: t8 =>
        .ok (b8 + b7 <<< 8 + b6 <<< 16 + b5 <<< 24 + b4 <<< 32 +
             b3 <<< 40 + b2 <<< 48 + v1 <<< 56, t8)
      | _ => .error .eof

theorem readVarint_length_lt {s s' : List Nat} {v : Nat}
    (h : readVarint s = .ok (v, s')) : s'.length < s.length := by
  rcases s with _ | ⟨b1, t1⟩
  · exact absurd h (by simp [readVarint])
  unfold readVarint at h
  dsimp only at h
  have hk4 : (b1 &&& 0xc0) >>> 6 < 4 := by
    rw [Nat.shiftRight_eq_div_pow]
    have hle : b1 &&& 0xc0 ≤ 0xc0 := Nat.and_le_right
    omega
  set k := (b1 &&& 0xc0) >>> 6 with hk
  clear_value k
  interval_cases k
  · simp only [show (1:Nat) <<< 0 = 1 from rfl] at h
    norm_num at h
    obtain ⟨h1, h2⟩ := h
    subst h2; simp
  · simp only [show (1:Nat) <<< 1 = 2 from rfl] at h
    norm_num at h
    rcases t1 with _ | ⟨b2, t1⟩
    · exact absurd h (by simp)
    simp only [Except.ok.injEq, Prod.mk.injEq] at h
    obtain ⟨h1, h2⟩ := h
    subst h2; simp; omega
  · simp only [show (1:Nat) <<< 2 = 4 from rfl] at h
    norm_num at h
    rcases t1 with _ | ⟨b2, t1⟩
    · exact absurd h (by simp)
    rcases t1 with _ | ⟨b3, t1⟩
    · exact absurd h (by simp)
    rcases t1 with _ | ⟨b4, t4⟩
    · exact absurd h (by simp)
    simp only [Except.ok.injEq, Prod.mk.injEq] at h
    obtain ⟨h1, h2⟩ := h
    subst h2; simp; omega
  · simp only [show (1:Nat) <<< 3 = 8 from rfl] at h
    norm_num at h
    rcases t1 with _ | ⟨b2, t1⟩
    · exact absurd h (by simp)
    rcases t1 with _ | ⟨b3, t1⟩
    · exact absurd h (by simp)
    rcases t1 with _ | ⟨b4, t1⟩
    · exact absurd h (by simp)
    rcases t1 with _ | ⟨b5, t1⟩
    · exact absurd h (by simp)
    rcases t1 with _ | ⟨b6, t1⟩
    · exact absurd h (by simp)
    rcases t1 with _ | ⟨b7, t1⟩
    · exact absurd h (by simp)
    rcases t1 with _ | ⟨b8, t8⟩
    · exact absurd h (by simp)
    simp only [Except.ok.injEq, Prod.mk.injEq] at h
    obtain ⟨h1, h2⟩ := h
    subst h2; simp; omega

theorem land_c0_of_lt {x : Nat} (h : x < 64) : x &&& 0xc0 = 0 := by
  interval_cases x <;> decide

theorem land_3f_of_lt {x : Nat} (h : x < 64) : x &&& 63 = x := by
  interval_cases x <;> decide

theorem lor40_land_c0 {x : Nat} (h : x < 64) : (x ||| 0x40) &&& 0xc0 = 0x40 := by
  interval_cases x <;> decide

theorem lor40_land_3f {x : Nat} (h : x < 64) : (x ||| 0x40) &&& 63 = x := by
  interval_cases x <;> decide

theorem lor80_land_c0 {x : Nat} (h : x < 64) : (x ||| 0x80) &&& 0xc0 = 0x80 := by
  interval_cases x <;> decide

theorem lor80_land_3f {x : Nat} (h : x < 64) : (x ||| 0x80) &&& 63 = x := by
  interval_cases x <;> decide

theorem lorc0_land_c0 {x : Nat} (h : x < 64) : (x ||| 0xc0) &&& 0xc0 = 0xc0 := by
  interval_cases x <;> decide

theorem lorc0_land_3f {x : Nat} (h : x < 64) : (x ||| 0xc0) &&& 63 = x := by
  interval_cases x <;> decide

/-- Round trip: reading back an appended varint yields the value and leaves
exactly the following bytes unread. -/
theorem readVarint_appendVarint (v : Nat) (tail : List Nat) (hv : v ≤ maxVarInt8) :
    readVarint (appendVarint [] v ++ tail) = .ok (v, tail) := by
  rw [show maxVarInt8 = 4611686018427387903 from rfl] at hv
  simp only [appendVarint, maxVarInt1, maxVarInt2, maxVarInt4, maxVarInt8, uint8]
  by_cases h1 : v ≤ 63
  · simp only [if_pos h1, List.nil_append, List.cons_append]
    have hm : v % 256 = v := by omega
    simp only [readVarint]
    rw [hm, land_c0_of_lt (show v < 64 by omega)]
    simp only [show (255 - 192 : Nat) = 63 from rfl,
               show (1:Nat) <<< ((0:Nat) >>> 6) = 1 from rfl]
    norm_num
    exact land_3f_of_lt (show v < 64 by omega)
  · simp only [if_neg h1]
    by_cases h2 : v ≤ 16383
    · simp only [if_pos h2, List.nil_append, List.cons_append]
      have hx : v >>> 8 < 64 := by omega
      have hxm : v >>> 8 % 256 = v >>> 8 := by omega
      simp only [readVarint]
      rw [hxm, lor40_land_c0 hx]
      simp only [show (255 - 192 : Nat) = 63 from rfl, lor40_land_3f hx,
                 show (1:Nat) <<< ((64:Nat) >>> 6) = 2 from rfl]
      norm_num
      omega
    · simp only [if_neg h2]
      by_cases h4 : v ≤ 1073741823
      · simp only [if_pos h4, List.nil_append, List.cons_append]
        have hx : v >>> 24 < 64 := by omega
        have hxm : v >>> 24 % 256 = v >>> 24 := by omega
        simp only [readVarint]
        rw [hxm, lor80_land_c0 hx]
        simp only [show (255 - 192 : Nat) = 63 from rfl, lor80_land_3f hx,
                   show (1:Nat) <<< ((128:Nat) >>> 6) = 4 from rfl]
        norm_num
        omega
      · simp only [if_neg h4, if_pos hv, List.nil_append, List.cons_append]
        have hx : v >>> 56 < 64 := by omega
        have hxm : v >>> 56 % 256 = v >>> 56 := by omega
        simp only [readVarint]
        rw [hxm, lorc0_land_c0 hx]
        simp only [show (255 - 192 : Nat) = 63 from rfl, lorc0_land_3f hx,
                   show (1:Nat) <<< ((192:Nat) >>> 6) = 8 from rfl]
        norm_num
        omega

theorem appendVarint_eq_append (b : List Nat) (v : Nat) :
    appendVarint b v = b ++ appendVarint [] v := by
  unfold appendVarint
  split_ifs <;> simp

theorem appendVarint_length (v : Nat) (hv : v ≤ maxVarInt8) :
    (appendVarint [] v).length = varintLen v := by
  unfold appendVarint varintLen
  split_ifs <;> simp_all

/-- Byte-count of a successful varint read: exactly the encoded length is
consumed. -/
theorem readVarint_appendVarint_consumed (v : Nat) (tail : List Nat) (hv : v ≤ maxVarInt8) :
    (appendVarint [] v ++ tail).length - tail.length = varintLen v := by
  rw [List.length_append, appendVarint_length v hv]
  omega

/-- The `FrameType` alias is a `uint64` identifier. -/
abbrev FrameType := Nat

/-- The `dataFrame` record: DATA frame descriptor, body left unread. -/
structure dataFrame where
  Length : Nat
  deriving DecidableEq, Repr

/-- The `headersFrame` record: HEADERS frame descriptor, body left unread. -/
structure headersFrame where
  Length : Nat
  deriving DecidableEq, Repr

/-- Extended CONNECT, RFC 9220. -/
def settingExtendedConnect : Nat := 0x8
/-- HTTP Datagrams, RFC 9297. -/
def settingDatagram : Nat := 0x33

/-- The `settingsFrame` record.  Go's `Other map[uint64]uint64` may be `nil` or
allocated; the model keeps that distinction with `Option`, and represents the
map as an association list with unique keys in insertion order (Go map
iteration order is unspecified; the properties proved below compare maps by
lookup, never by order). -/
structure settingsFrame where
  Datagram : Bool
  ExtendedConnect : Bool
  Other : Option (List (Nat × Nat))
  deriving DecidableEq, Repr

/-- The `goAwayFrame` record; `quic.StreamID` is the varint-decoded identifier. -/
structure goAwayFrame where
  StreamID : Nat
  deriving DecidableEq, Repr

/-- The `frame` interface value: one of the four concrete frame types
`ParseNext` ever returns. -/
inductive frame where
  | data (f : dataFrame)
  | headers (f : headersFrame)
  | settings (f : settingsFrame)
  | goAway (f : goAwayFrame)
  deriving DecidableEq, Repr

/-- Association-list lookup, modelling Go's `m[id]` map read. -/
def lookupPair : List (Nat × Nat) → Nat → Option Nat
  | [], _ => none
  | (k, v) :: rest, id => if k = id then some v else lookupPair rest id

/-- Model of `f.Other[id]`: map read on a possibly-nil map (a nil map reads as empty). -/
def otherGet (o : Option (List (Nat × Nat))) (id : Nat) : Option Nat :=
  match o with
  | none => none
  | some l => lookupPair l id

/-- Model of `f.Other[id] = val`: map insert, allocating the map first when nil. -/
def otherInsert (o : Option (List (Nat × Nat))) (id val : Nat) :
    Option (List (Nat × Nat)) :=
  match o with
  | none => some [(id, val)]
  | some l => some (l ++ [(id, val)])

/-- Model of `io.ReadFull(r, buf)` with `len(buf) = l` over the list model: the `l`
bytes read and the rest on success, `io.EOF` when no byte could be read,
`io.ErrUnexpectedEOF` on a partial read. -/
def readFull (s : List Nat) (l : Nat) : Except Err (List Nat × List Nat) :=
  if l ≤ s.length then .ok (s.take l, s.drop l)
  else if s.isEmpty then .error .eof
  else .error .unexpectedEOF

/-- The key/value loop of `parseSettingsFrame`: repeatedly read an id/value
varint pair from the buffered body and dispatch on the id, threading the
partially filled frame and the two duplicate-tracking flags. -/
def parseSettingsBody (b : List Nat) (f : settingsFrame)
    (readDatagram readExtendedConnect : Bool) : Except Err settingsFrame :=
  if b.length = 0 then .ok f
  else
    match hid : readVarint b with
    | .error e => .error e
    | .ok (id, b1) =>
      match hval : readVarint b1 with
      | .error e => .error e
      | .ok (val, b2) =>
        if id = settingExtendedConnect then
          if readExtendedConnect then .error (.duplicateSetting id)
          else if val ≠ 0 ∧ val ≠ 1 then .error (.invalidSettingValue id val)
          else parseSettingsBody b2 { f with ExtendedConnect := val == 1 } readDatagram true
        else if id = settingDatagram then
          if readDatagram then .error (.duplicateSetting id)
          else if val ≠ 0 ∧ val ≠ 1 then .error (.invalidSettingValue id val)
          else parseSettingsBody b2 { f with Datagram := val == 1 } true readExtendedConnect
        else
          if (otherGet f.Other id).isSome then .error (.duplicateSetting id)
          else parseSettingsBody b2 { f with Other := otherInsert f.Other id val }
                 readDatagram readExtendedConnect
  termination_by b.length
  decreasing_by
    all_goals exact lt_trans (readVarint_length_lt hval) (readVarint_length_lt hid)

/-- Model of `parseSettingsFrame`: size ceiling, buffered `ReadFull` (with
`io.ErrUnexpectedEOF` mapped to `io.EOF`), then the key/value loop over the
buffer.  The second component is the unread remainder of the stream
(`io.ReadFull` consumes what it reads even when it fails). -/
def parseSettingsFrame (s : List Nat) (l : Nat) : Except Err settingsFrame × List Nat :=
  if 8 * (1 <<< 10) < l then (.error (.oversizedSettings l), s)
  else
    match readFull s l with
    | .error e => (.error (if e = .unexpectedEOF then .eof else e), [])
    | .ok (buf, rest) =>
      (parseSettingsBody buf ⟨false, false, none⟩ false false, rest)

/-- Model of `parseGoAwayFrame`.  The repository wraps the reader in a
`countingByteReader` whose definition is outside `src`; modelled from the
spec: "read one variable-length integer as the stream identifier while
counting exactly how many bytes were consumed" — in the list model the count
is the difference of stream lengths.  The second component is the unread
remainder of the stream. -/
def parseGoAwayFrame (s : List Nat) (l : Nat) : Except Err goAwayFrame × List Nat :=
  match readVarint s with
  | .error e => (.error e, [])
  | .ok (id, rest) =>
    if s.length - rest.length ≠ l then (.error .inconsistentGoAwayLength, rest)
    else (.ok ⟨id⟩, rest)

/-- Model of `goAwayFrame.Append`. -/
def goAwayFrame.Append (f : goAwayFrame) (b : List Nat) : List Nat :=
  appendVarint (appendVarint (appendVarint b 0x7) (varintLen f.StreamID)) f.StreamID

/-- Model of `dataFrame.Append`. -/
def dataFrame.Append (f : dataFrame) (b : List Nat) : List Nat :=
  appendVarint (appendVarint b 0x0) f.Length

/-- Model of `headersFrame.Append`. -/
def headersFrame.Append (f : headersFrame) (b : List Nat) : List Nat :=
  appendVarint (appendVarint b 0x1) f.Length

/-- The body-length computation of `settingsFrame.Append` (the `l` loop). -/
def settingsFrame.len (f : settingsFrame) : Nat :=
  let l := (f.Other.getD []).foldl (fun acc p => acc + varintLen p.1 + varintLen p.2) 0
  let l := if f.Datagram then l + varintLen settingDatagram + varintLen 1 else l
  if f.ExtendedConnect then l + varintLen settingExtendedConnect + varintLen 1 else l

/-- Model of `settingsFrame.Append`: type tag `0x4`, computed body length, then the
datagram pair, the extended-connect pair, and the unknown settings. -/
def settingsFrame.Append (f : settingsFrame) (b : List Nat) : List Nat :=
  let b := appendVarint b 0x4
  let b := appendVarint b f.len
  let b := if f.Datagram then appendVarint (appendVarint b settingDatagram) 1 else b
  let b := if f.ExtendedConnect then appendVarint (appendVarint b settingExtendedConnect) 1 else b
  (f.Other.getD []).foldl (fun acc p => appendVarint (appendVarint acc p.1) p.2) b

/-- The handler type `unknownFrameHandlerFunc`: `(FrameType, error) -> (processed, error)`. -/
def unknownFrameHandlerFunc := FrameType → Option Err → Bool × Option Err

/-- The "frame unexpected" application error code (H3_FRAME_UNEXPECTED).
Modelled from the spec: `ErrCodeFrameUnexpected` is declared in the
repository's error-code file, which is not under `src`; its RFC 9114 value is
0x105. -/
def ErrCodeFrameUnexpected : Nat := 0x105

deriving instance DecidableEq for Except

/-- Result of one `ParseNext` call over the list model: the returned frame or
error, the `closeConn` invocations (argument pairs, in order), the
unknown-frame-handler invocations (argument pairs, in order), and the unread
remainder of the stream. -/
structure parseNextResult where
  result : Except Err frame
  closeCalls : List (Nat × String)
  handlerCalls : List (FrameType × Option Err)
  rest : List Nat
  deriving DecidableEq, Repr

/-- Outcome of the `t > 0xd` handler consultation in `ParseNext`: `ret` means
the dispatcher returns immediately with the given result, `go` means it goes
on to read the length; `calls` records the handler invocation, if any. -/
inductive unknownDispatch where
  | ret (r : Except Err frame) (calls : List (FrameType × Option Err))
  | go (calls : List (FrameType × Option Err))
  deriving DecidableEq, Repr

/-- The handler consultation for frame types not defined in the HTTP/3 spec:
for `t > 0xd` with a registered handler, a handler error is returned as is,
`processed = true` turns into the `errHijacked` sentinel, and a declining
handler leaves the frame to the dispatcher (which will skip it). -/
def consultHandler (handler : Option unknownFrameHandlerFunc) (t : Nat) :
    unknownDispatch :=
  if 0xd < t then
    match handler with
    | none => .go []
    | some h =>
      match h t none with
      | (_, some e2) => .ret (.error e2) [(t, none)]
      | (true, none) => .ret (.error .hijacked) [(t, none)]
      | (false, none) => .go [(t, none)]
  else .go []

/-- Model of `frameParser.ParseNext` over the list model.  The `closeConn`
collaborator is modelled by recording its invocations; the unknown-frame
handler is an optional pure function whose invocations are likewise
recorded.  On a failed type-tag read the handler (when registered) is
consulted with `(0, the read error)`; an error from it wins, then the
hijack sentinel, then the original read error.  Body bytes of frames the
dispatcher does not return are discarded and parsing loops to the next
frame boundary.  (`quicvarint.NewReader` wraps the stream without buffering,
so the varint reads and the settings codec's direct reads consume one and
the same byte stream, as they do here.) -/
def ParseNext (handler : Option unknownFrameHandlerFunc) (s : List Nat) :
    parseNextResult :=
  match hT : readVarint s with
  | .error e =>
    match handler with
    | none => ⟨.error e, [], [], []⟩
    | some h =>
      match h 0 (some e) with
      | (_, some e2) => ⟨.error e2, [], [(0, some e)], []⟩
      | (true, none) => ⟨.error .hijacked, [], [(0, some e)], []⟩
      | (false, none) => ⟨.error e, [], [(0, some e)], []⟩
  | .ok (t, s1) =>
    match consultHandler handler t with
    | .ret r calls => ⟨r, [], calls, s1⟩
    | .go calls =>
      match hL : readVarint s1 with
      | .error e => ⟨.error e, [], calls, []⟩
      | .ok (l, s2) =>
        if t = 0x0 then ⟨.ok (.data ⟨l⟩), [], calls, s2⟩
        else if t = 0x1 then ⟨.ok (.headers ⟨l⟩), [], calls, s2⟩
        else if t = 0x4 then
          match parseSettingsFrame s2 l with
          | (r, s3) => ⟨r.map .settings, [], calls, s3⟩
        else if t = 0x7 then
          match parseGoAwayFrame s2 l with
          | (r, s3) => ⟨r.map .goAway, [], calls, s3⟩
        else if t = 0x2 ∨ t = 0x6 ∨ t = 0x8 ∨ t = 0x9 then
          ⟨.error (.reservedFrameType t), [(ErrCodeFrameUnexpected, "")], calls, s2⟩
        else
          if l ≤ s2.length then
            let r := ParseNext handler (s2.drop l)
            ⟨r.result, r.closeCalls, calls ++ r.handlerCalls, r.rest⟩
          else ⟨.error .eof, [], calls, []⟩
  termination_by s.length
  decreasing_by
    have h1 := readVarint_length_lt hT
    have h2 := readVarint_length_lt hL
    simp only [List.length_drop]
    omega

/-- One-byte varints read back as themselves. -/
theorem readVarint_cons1 {b : Nat} (hb : b ≤ 63) (t : List Nat) :
    readVarint (b :: t) = .ok (b, t) := by
  have h := readVarint_appendVarint b t
    (by rw [show maxVarInt8 = 4611686018427387903 from rfl]; omega)
  rw [appendVarint, if_pos (show b ≤ maxVarInt1 by
    rw [show maxVarInt1 = 63 from rfl]; omega)] at h
  simpa [uint8, Nat.mod_eq_of_lt (show b < 256 by omega)] using h

theorem varintLen_pos {v : Nat} (hv : v ≤ maxVarInt8) : 0 < varintLen v := by
  unfold varintLen
  split_ifs <;> simp_all

theorem parseSettingsBody_nil (f : settingsFrame) (rd re : Bool) :
    parseSettingsBody [] f rd re = .ok f := by
  rw [parseSettingsBody.eq_def]
  norm_num

/-- A settings body as a sequence of id/value pairs: the varint pairs encoded
in order (this is how both `settingsFrame.Append` and a peer lay them out). -/
def encodePairs (ps : List (Nat × Nat)) : List Nat :=
  ps.foldl (fun acc p => appendVarint (appendVarint acc p.1) p.2) []

/-- Structural companion of `parseSettingsBody`: the same per-id dispatch,
one decoded pair at a time.  `parseSettingsBody_encodePairs` identifies it
with the source loop on encoded pair lists. -/
def parsePairs : List (Nat × Nat) → settingsFrame → Bool → Bool → Except Err settingsFrame
  | [], f, _, _ => .ok f
  | (id, val) :: rest, f, rd, re =>
    if id = settingExtendedConnect then
      if re then .error (.duplicateSetting id)
      else if val ≠ 0 ∧ val ≠ 1 then .error (.invalidSettingValue id val)
      else parsePairs rest { f with ExtendedConnect := val == 1 } rd true
    else if id = settingDatagram then
      if rd then .error (.duplicateSetting id)
      else if val ≠ 0 ∧ val ≠ 1 then .error (.invalidSettingValue id val)
      else parsePairs rest { f with Datagram := val == 1 } true re
    else
      if (otherGet f.Other id).isSome then .error (.duplicateSetting id)
      else parsePairs rest { f with Other := otherInsert f.Other id val } rd re

theorem foldl_emit_acc (ps : List (Nat × Nat)) (acc : List Nat) :
    ps.foldl (fun a p => appendVarint (appendVarint a p.1) p.2) acc
      = acc ++ ps.foldl (fun a p => appendVarint (appendVarint a p.1) p.2) [] := by
  induction ps generalizing acc with
  | nil => simp
  | cons p ps ih =>
    simp only [List.foldl_cons]
    rw [ih, ih (appendVarint (appendVarint [] p.1) p.2)]
    rw [appendVarint_eq_append (appendVarint acc p.1), appendVarint_eq_append acc,
        appendVarint_eq_append (appendVarint [] p.1)]
    simp

theorem encodePairs_cons (p : Nat × Nat) (ps : List (Nat × Nat)) :
    encodePairs (p :: ps)
      = appendVarint [] p.1 ++ (appendVarint [] p.2 ++ encodePairs ps) := by
  unfold encodePairs
  simp only [List.foldl_cons]
  rw [foldl_emit_acc]
  rw [appendVarint_eq_append (appendVarint [] p.1)]
  simp

/-- The settings loop applied to an encoded pair list runs the structural
pair dispatch. -/
theorem parseSettingsBody_encodePairs (ps : List (Nat × Nat)) (f : settingsFrame)
    (rd re : Bool) (hb : ∀ p ∈ ps, p.1 ≤ maxVarInt8 ∧ p.2 ≤ maxVarInt8) :
    parseSettingsBody (encodePairs ps) f rd re = parsePairs ps f rd re := by
  revert hb
  induction ps generalizing f rd re with
  | nil =>
    intro hb
    simpa [encodePairs] using parseSettingsBody_nil f rd re
  | cons p ps ih =>
    intro hb
    obtain ⟨id, val⟩ := p
    have hid : id ≤ maxVarInt8 := (hb (id, val) (List.mem_cons_self _ _)).1
    have hval : val ≤ maxVarInt8 := (hb (id, val) (List.mem_cons_self _ _)).2
    rw [encodePairs_cons]
    rw [parseSettingsBody.eq_def]
    have hlen : ¬ ((appendVarint [] id ++ (appendVarint [] val ++ encodePairs ps)).length = 0) := by
      rw [List.length_append, appendVarint_length id hid]
      have := varintLen_pos hid
      omega
    rw [if_neg hlen]
    rw [readVarint_appendVarint id _ hid]
    dsimp only
    rw [readVarint_appendVarint val _ hval]
    dsimp only
    rw [parsePairs]
    split_ifs <;>
      first
        | rfl
        | exact ih _ _ _ (fun q hq => hb q (List.mem_cons_of_mem _ hq))

theorem lookupPair_append_self (l : List (Nat × Nat)) (id val : Nat)
    (h : lookupPair l id = none) :
    lookupPair (l ++ [(id, val)]) id = some val := by
  induction l with
  | nil => simp [lookupPair]
  | cons p l ih =>
    obtain ⟨k, v⟩ := p
    by_cases hk : k = id
    · simp [lookupPair, hk] at h
    · simp only [List.cons_append, lookupPair, if_neg hk] at h ⊢
      exact ih h

theorem lookupPair_append_ne (l : List (Nat × Nat)) (id val k : Nat) (h : k ≠ id) :
    lookupPair (l ++ [(id, val)]) k = lookupPair l k := by
  induction l with
  | nil =>
    simp only [List.nil_append, lookupPair]
    rw [if_neg (fun hh => h hh.symm)]
  | cons p l ih =>
    obtain ⟨k1, v1⟩ := p
    simp only [List.cons_append, lookupPair]
    split_ifs with hk
    · rfl
    · exact ih

theorem lookupPair_append_none {l l2 : List (Nat × Nat)} {k : Nat}
    (h : lookupPair (l ++ l2) k = none) : lookupPair l k = none := by
  induction l with
  | nil => simp [lookupPair]
  | cons p l ih =>
    obtain ⟨k1, v1⟩ := p
    simp only [List.cons_append, lookupPair] at h ⊢
    by_cases hk : k1 = k
    · rw [if_pos hk] at h ⊢
      exact h
    · rw [if_neg hk] at h ⊢
      exact ih h

theorem otherGet_insert_self (o : Option (List (Nat × Nat))) (id val : Nat)
    (h : otherGet o id = none) :
    otherGet (otherInsert o id val) id = some val := by
  cases o with
  | none => simp [otherGet, otherInsert, lookupPair]
  | some l =>
    simp only [otherGet, otherInsert] at h ⊢
    exact lookupPair_append_self l id val h

theorem otherGet_insert_ne (o : Option (List (Nat × Nat))) (id val k : Nat)
    (h : k ≠ id) :
    otherGet (otherInsert o id val) k = otherGet o k := by
  cases o with
  | none =>
    simp only [otherGet, otherInsert, lookupPair]
    rw [if_neg (fun hh => h hh.symm)]
  | some l =>
    simp only [otherGet, otherInsert]
    exact lookupPair_append_ne l id val k h

theorem otherGet_insert_none {o : Option (List (Nat × Nat))} {id val k : Nat}
    (h : otherGet (otherInsert o id val) k = none) : otherGet o k = none := by
  cases o with
  | none => simp [otherGet]
  | some l =>
    simp only [otherGet, otherInsert] at h ⊢
    exact lookupPair_append_none h

theorem otherInsert_ne_nil (o : Option (List (Nat × Nat))) (id val : Nat) :
    otherInsert o id val ≠ some [] := by
  cases o <;> simp [otherInsert]

/-- Whether the parser state already records key `k` as present: the two
promoted keys live in the duplicate-tracking flags, every other key in the
`Other` map. -/
def seenKey (f : settingsFrame) (rd re : Bool) (k : Nat) : Bool :=
  if k = settingExtendedConnect then re
  else if k = settingDatagram then rd
  else (otherGet f.Other k).isSome

theorem seenKey_false_of_ext {f : settingsFrame} {rd re b : Bool} {k : Nat}
    (h : seenKey { f with ExtendedConnect := b } rd true k = false) :
    seenKey f rd re k = false := by
  by_cases h1 : k = settingExtendedConnect
  · exact absurd h (by simp [seenKey, h1])
  by_cases h2 : k = settingDatagram
  · simpa [seenKey, settingExtendedConnect, settingDatagram, h1, h2] using h
  · simpa [seenKey, h1, h2] using h

theorem seenKey_false_of_dg {f : settingsFrame} {rd re b : Bool} {k : Nat}
    (h : seenKey { f with Datagram := b } true re k = false) :
    seenKey f rd re k = false := by
  by_cases h1 : k = settingExtendedConnect
  · simpa [seenKey, h1] using h
  by_cases h2 : k = settingDatagram
  · exact absurd h (by simp [seenKey, settingExtendedConnect, settingDatagram, h1, h2])
  · simpa [seenKey, h1, h2] using h

theorem seenKey_false_of_ins {f : settingsFrame} {rd re : Bool} {id val k : Nat}
    (h : seenKey { f with Other := otherInsert f.Other id val } rd re k = false) :
    seenKey f rd re k = false := by
  by_cases h1 : k = settingExtendedConnect
  · simpa [seenKey, h1] using h
  by_cases h2 : k = settingDatagram
  · simpa [seenKey, h1, h2] using h
  · simp only [seenKey, if_neg h1, if_neg h2] at h ⊢
    have h' : otherGet (otherInsert f.Other id val) k = none :=
      Option.not_isSome_iff_eq_none.mp (by simp [h])
    rw [otherGet_insert_none h']
    rfl

/-- A successful pair-dispatch run never meets a key its starting state
already records. -/
theorem parsePairs_ok_fresh (ps : List (Nat × Nat)) :
    ∀ (f : settingsFrame) (rd re : Bool) (f' : settingsFrame),
      parsePairs ps f rd re = .ok f' →
      ∀ p ∈ ps, seenKey f rd re p.1 = false := by
  induction ps with
  | nil => intro f rd re f' hok p hp; cases hp
  | cons q ps ih =>
    obtain ⟨id, val⟩ := q
    intro f rd re f' hok p hp
    rw [parsePairs] at hok
    rcases List.mem_cons.1 hp with hp1 | hp2
    · subst hp1
      split_ifs at hok <;>
        first
          | exact absurd hok (by simp)
          | simp_all [seenKey]
    · split_ifs at hok <;>
        first
          | exact absurd hok (by simp)
          | exact seenKey_false_of_ext (ih _ _ _ _ hok p hp2)
          | exact seenKey_false_of_dg (ih _ _ _ _ hok p hp2)
          | exact seenKey_false_of_ins (ih _ _ _ _ hok p hp2)

/-- A successful pair-dispatch run has pairwise distinct keys. -/
theorem parsePairs_ok_nodup (ps : List (Nat × Nat)) :
    ∀ (f : settingsFrame) (rd re : Bool) (f' : settingsFrame),
      parsePairs ps f rd re = .ok f' → (ps.map Prod.fst).Nodup := by
  induction ps with
  | nil => intro f rd re f' _; simp
  | cons q ps ih =>
    obtain ⟨id, val⟩ := q
    intro f rd re f' hok
    rw [parsePairs] at hok
    simp only [List.map_cons, List.nodup_cons]
    split_ifs at hok with h1 h2 h3 h4 h5 h6 h7 <;>
      first
        | exact absurd hok (by simp)
        | (refine ⟨?_, ih _ _ _ _ hok⟩
           intro hmem
           obtain ⟨p, hp, hpid⟩ := List.mem_map.1 hmem
           have hfresh := parsePairs_ok_fresh ps _ _ _ _ hok p hp
           rw [hpid] at hfresh
           simp_all [seenKey, settingExtendedConnect, settingDatagram]
           done)
        | (refine ⟨?_, ih _ _ _ _ hok⟩
           intro hmem
           obtain ⟨p, hp, hpid⟩ := List.mem_map.1 hmem
           have hfresh := parsePairs_ok_fresh ps _ _ _ _ hok p hp
           rw [hpid] at hfresh
           simp only [seenKey, if_neg h1, if_neg h4] at hfresh
           rw [otherGet_insert_self _ _ _
             (Option.not_isSome_iff_eq_none.mp (by simp [h7]))] at hfresh
           simp at hfresh
           done)

/-- When every promoted-key occurrence carries a boolean value, the pair
dispatch either succeeds or fails with a duplicate-setting error. -/
theorem parsePairs_progress (ps : List (Nat × Nat)) :
    ∀ (f : settingsFrame) (rd re : Bool),
      (∀ p ∈ ps, (p.1 = settingExtendedConnect ∨ p.1 = settingDatagram) →
        p.2 = 0 ∨ p.2 = 1) →
      (∃ f', parsePairs ps f rd re = .ok f') ∨
      (∃ k, parsePairs ps f rd re = .error (.duplicateSetting k)) := by
  induction ps with
  | nil => intro f rd re _; exact Or.inl ⟨f, rfl⟩
  | cons q ps ih =>
    obtain ⟨id, val⟩ := q
    intro f rd re hv
    have hvtail : ∀ p ∈ ps,
        (p.1 = settingExtendedConnect ∨ p.1 = settingDatagram) → p.2 = 0 ∨ p.2 = 1 :=
      fun p hp => hv p (List.mem_cons_of_mem _ hp)
    rw [parsePairs]
    split_ifs with h1 h2 h3 h4 h5 h6 h7 <;>
      first
        | exact Or.inr ⟨id, rfl⟩
        | exact ih _ _ _ hvtail
        | exact absurd (hv (id, val) (List.mem_cons_self _ _) (Or.inl h1)) (by tauto)
        | exact absurd (hv (id, val) (List.mem_cons_self _ _) (Or.inr h4)) (by tauto)

/-- Dispatching pairs of fresh, pairwise-distinct, non-promoted keys leaves
the flags untouched and appends each pair to the `Other` map in order. -/
theorem parsePairs_others (ps : List (Nat × Nat)) :
    ∀ (f : settingsFrame) (rd re : Bool),
      (∀ p ∈ ps, p.1 ≠ settingExtendedConnect ∧ p.1 ≠ settingDatagram) →
      (∀ p ∈ ps, otherGet f.Other p.1 = none) →
      (ps.map Prod.fst).Nodup →
      parsePairs ps f rd re
        = .ok { f with Other := ps.foldl (fun o p => otherInsert o p.1 p.2) f.Other } := by
  induction ps with
  | nil => intro f rd re _ _ _; simp [parsePairs]
  | cons q ps ih =>
    obtain ⟨id, val⟩ := q
    intro f rd re hnp hfresh hnd
    rw [parsePairs]
    have h1 : ¬ id = settingExtendedConnect := (hnp (id, val) (List.mem_cons_self _ _)).1
    have h4 : ¬ id = settingDatagram := (hnp (id, val) (List.mem_cons_self _ _)).2
    rw [if_neg h1, if_neg h4,
        if_neg (show ¬ (otherGet f.Other id).isSome = true by
          simp [hfresh (id, val) (List.mem_cons_self _ _)])]
    have hidtail : ∀ p ∈ ps, p.1 ≠ id := by
      intro p hp heq
      simp only [List.map_cons, List.nodup_cons] at hnd
      exact hnd.1 (List.mem_map.2 ⟨p, hp, heq⟩)
    rw [ih _ _ _ (fun p hp => hnp p (List.mem_cons_of_mem _ hp))
        (fun p hp => by
          rw [otherGet_insert_ne _ _ _ _ (hidtail p hp)]
          exact hfresh p (List.mem_cons_of_mem _ hp))
        (by simp only [List.map_cons, List.nodup_cons] at hnd; exact hnd.2)]
    simp only [List.foldl_cons]

/-- Dispatching only promoted keys never touches the `Other` map. -/
theorem parsePairs_promoted_only (ps : List (Nat × Nat)) :
    ∀ (f : settingsFrame) (rd re : Bool) (f' : settingsFrame),
      (∀ p ∈ ps, p.1 = settingExtendedConnect ∨ p.1 = settingDatagram) →
      parsePairs ps f rd re = .ok f' → f'.Other = f.Other := by
  induction ps with
  | nil =>
    intro f rd re f' _ hok
    rw [parsePairs] at hok
    cases hok
    rfl
  | cons q ps ih =>
    obtain ⟨id, val⟩ := q
    intro f rd re f' hpk hok
    rw [parsePairs] at hok
    split_ifs at hok <;>
      first
        | exact absurd hok (by simp)
        | (have htail := ih _ _ _ _ (fun p hp => hpk p (List.mem_cons_of_mem _ hp)) hok
           exact htail)
        | (exfalso
           rcases hpk (id, val) (List.mem_cons_self _ _) with h | h <;> simp_all)

/-- Auxiliary strong-induction form of the `Other`-map invariant of the
settings loop. -/
theorem parseSettingsBody_inv_aux (n : Nat) :
    ∀ (b : List Nat) (f : settingsFrame) (rd re : Bool) (f' : settingsFrame),
      b.length ≤ n →
      parseSettingsBody b f rd re = .ok f' →
      (f.Other ≠ some [] ∧ otherGet f.Other settingExtendedConnect = none ∧
        otherGet f.Other settingDatagram = none) →
      f'.Other ≠ some [] ∧ otherGet f'.Other settingExtendedConnect = none ∧
        otherGet f'.Other settingDatagram = none := by
  induction n with
  | zero =>
    intro b f rd re f' hn hok hinv
    have hb : b.length = 0 := by omega
    rw [parseSettingsBody.eq_def, if_pos hb] at hok
    cases hok
    exact hinv
  | succ n ihn =>
    intro b f rd re f' hn hok hinv
    rw [parseSettingsBody.eq_def] at hok
    by_cases hb : b.length = 0
    · rw [if_pos hb] at hok
      cases hok
      exact hinv
    rw [if_neg hb] at hok
    rcases hid : readVarint b with e | ⟨id, b1⟩
    · rw [hid] at hok
      exact absurd hok (by simp)
    rw [hid] at hok
    dsimp only at hok
    rcases hval : readVarint b1 with e | ⟨val, b2⟩
    · rw [hval] at hok
      exact absurd hok (by simp)
    rw [hval] at hok
    dsimp only at hok
    have hb1 : b1.length < b.length := readVarint_length_lt hid
    have hb2 : b2.length < b1.length := readVarint_length_lt hval
    split_ifs at hok with h1 h2 h3 h4 h5 h6 h7 <;>
      first
        | exact absurd hok (by simp)
        | exact ihn _ _ _ _ _ (by omega) hok hinv
        | exact ihn _ _ _ _ _ (by omega) hok
            ⟨otherInsert_ne_nil _ _ _,
             by rw [otherGet_insert_ne _ _ _ _ (fun hh => h1 hh.symm)]; exact hinv.2.1,
             by rw [otherGet_insert_ne _ _ _ _ (fun hh => h4 hh.symm)]; exact hinv.2.2⟩

/-- The `Other`-map invariant of the settings loop: starting from a state whose
`Other` map is not the empty-but-allocated map and holds no promoted key,
any successful parse preserves this. -/
theorem parseSettingsBody_inv {b : List Nat} {f : settingsFrame} {rd re : Bool}
    {f' : settingsFrame}
    (hok : parseSettingsBody b f rd re = .ok f')
    (hinv : f.Other ≠ some [] ∧ otherGet f.Other settingExtendedConnect = none ∧
      otherGet f.Other settingDatagram = none) :
    f'.Other ≠ some [] ∧ otherGet f'.Other settingExtendedConnect = none ∧
      otherGet f'.Other settingDatagram = none :=
  parseSettingsBody_inv_aux b.length b f rd re f' (le_refl _) hok hinv

/-- Lookup after folding fresh, pairwise-distinct insertions: the original
binding wins when present, otherwise the inserted pairs are searched. -/
theorem otherGet_foldl_insert (ps : List (Nat × Nat)) :
    ∀ (o : Option (List (Nat × Nat))),
      (ps.map Prod.fst).Nodup →
      (∀ p ∈ ps, otherGet o p.1 = none) →
      ∀ k, otherGet (ps.foldl (fun o p => otherInsert o p.1 p.2) o) k
        = match otherGet o k with
          | some v => some v
          | none => lookupPair ps k := by
  induction ps with
  | nil =>
    intro o _ _ k
    cases h : otherGet o k <;> simp [lookupPair, h]
  | cons q ps ih =>
    obtain ⟨id, val⟩ := q
    intro o hnd hfresh k
    simp only [List.foldl_cons]
    have hfh : otherGet o id = none := hfresh (id, val) (List.mem_cons_self _ _)
    simp only [List.map_cons, List.nodup_cons] at hnd
    have hidtail : ∀ p ∈ ps, p.1 ≠ id := by
      intro p hp heq
      exact hnd.1 (List.mem_map.2 ⟨p, hp, heq⟩)
    rw [ih (otherInsert o id val) hnd.2 (fun p hp => by
      rw [otherGet_insert_ne _ _ _ _ (hidtail p hp)]
      exact hfresh p (List.mem_cons_of_mem _ hp))]
    by_cases hk : k = id
    · subst hk
      rw [otherGet_insert_self _ _ _ hfh, hfh]
      simp [lookupPair]
    · rw [otherGet_insert_ne _ _ _ _ hk]
      cases h : otherGet o k with
      | none =>
        simp only [lookupPair]
        rw [if_neg (fun hh => hk hh.symm)]
      | some v => rfl

theorem readFull_exact (s : List Nat) : readFull s s.length = .ok (s, []) := by
  simp [readFull]

theorem appendVarint_acc (b c : List Nat) (v : Nat) :
    appendVarint (b ++ c) v = b ++ appendVarint c v := by
  rw [appendVarint_eq_append (b ++ c), appendVarint_eq_append c, List.append_assoc]

theorem appendVarint_chain2 (b : List Nat) (x y : Nat) :
    appendVarint (appendVarint b x) y = b ++ appendVarint (appendVarint [] x) y := by
  rw [appendVarint_eq_append b x, appendVarint_acc]

/-- The body bytes `settingsFrame.Append` emits after the type tag and the
length field. -/
def settingsBody (f : settingsFrame) : List Nat :=
  let b : List Nat :=
    if f.Datagram then appendVarint (appendVarint [] settingDatagram) 1 else []
  let b :=
    if f.ExtendedConnect then appendVarint (appendVarint b settingExtendedConnect) 1 else b
  (f.Other.getD []).foldl (fun acc p => appendVarint (appendVarint acc p.1) p.2) b

/-- Decomposition: `settingsFrame.Append` is the type tag, the length field, and the body. -/
theorem settingsFrame_Append_decomp (f : settingsFrame) (b : List Nat) :
    f.Append b = appendVarint (appendVarint b 0x4) f.len ++ settingsBody f := by
  rcases f with ⟨d, e, o⟩
  unfold settingsFrame.Append settingsBody
  dsimp only
  rw [foldl_emit_acc]
  conv_rhs => rw [foldl_emit_acc]
  cases d <;> cases e <;>
    simp only [show ((true = true) = True) from by simp,
               show ((false = true) = False) from by simp, if_true, if_false]
  · simp
  · rw [appendVarint_chain2
      (appendVarint (appendVarint b 0x4)
        ({ Datagram := false, ExtendedConnect := true, Other := o } : settingsFrame).len)
      settingExtendedConnect 1]
    simp
  · rw [appendVarint_chain2
      (appendVarint (appendVarint b 0x4)
        ({ Datagram := true, ExtendedConnect := false, Other := o } : settingsFrame).len)
      settingDatagram 1]
    simp
  · rw [appendVarint_chain2
      (appendVarint
        (appendVarint
          (appendVarint (appendVarint b 0x4)
            ({ Datagram := true, ExtendedConnect := true, Other := o } : settingsFrame).len)
          settingDatagram) 1)
      settingExtendedConnect 1]
    rw [appendVarint_chain2
      (appendVarint (appendVarint b 0x4)
        ({ Datagram := true, ExtendedConnect := true, Other := o } : settingsFrame).len)
      settingDatagram 1]
    rw [appendVarint_chain2 (appendVarint (appendVarint [] settingDatagram) 1)
      settingExtendedConnect 1]
    simp

/-- The encoded settings body is the pair list: the datagram pair, then the
extended-connect pair, then the unknown settings. -/
theorem settingsBody_eq_encodePairs (f : settingsFrame) :
    settingsBody f = encodePairs
      ((if f.Datagram then [(settingDatagram, 1)] else []) ++
       (if f.ExtendedConnect then [(settingExtendedConnect, 1)] else []) ++
       f.Other.getD []) := by
  rcases f with ⟨d, e, o⟩
  unfold settingsBody encodePairs
  dsimp only
  cases d <;> cases e <;>
    simp only [show ((true = true) = True) from by simp,
               show ((false = true) = False) from by simp, if_true, if_false,
               List.nil_append, List.cons_append, List.append_nil,
               List.foldl_append, List.foldl_cons, List.foldl_nil]

theorem parsePairs_cons_dg (rest : List (Nat × Nat)) (f : settingsFrame) (re : Bool) :
    parsePairs ((settingDatagram, 1) :: rest) f false re
      = parsePairs rest { f with Datagram := true } true re := by
  rw [parsePairs]
  rw [if_neg (show ¬ settingDatagram = settingExtendedConnect from by decide),
      if_pos rfl,
      if_neg (show ¬ (false : Bool) = true from by decide),
      if_neg (show ¬ ((1:Nat) ≠ 0 ∧ (1:Nat) ≠ 1) from by decide)]
  rfl

theorem parsePairs_cons_ext (rest : List (Nat × Nat)) (f : settingsFrame) (rd : Bool) :
    parsePairs ((settingExtendedConnect, 1) :: rest) f rd false
      = parsePairs rest { f with ExtendedConnect := true } rd true := by
  rw [parsePairs]
  rw [if_pos rfl,
      if_neg (show ¬ (false : Bool) = true from by decide),
      if_neg (show ¬ ((1:Nat) ≠ 0 ∧ (1:Nat) ≠ 1) from by decide)]
  rfl

/-- Dispatching the encoder output: the flag pairs set the flags, the other
pairs build the `Other` map. -/
theorem parsePairs_flags_others (d e : Bool) (o : Option (List (Nat × Nat)))
    (hnp : ∀ p ∈ o.getD [], p.1 ≠ settingExtendedConnect ∧ p.1 ≠ settingDatagram)
    (hnd : ((o.getD []).map Prod.fst).Nodup) :
    parsePairs ((if d then [(settingDatagram, 1)] else []) ++
       (if e then [(settingExtendedConnect, 1)] else []) ++ o.getD [])
      ⟨false, false, none⟩ false false
    = .ok ⟨d, e, (o.getD []).foldl (fun acc p => otherInsert acc p.1 p.2) none⟩ := by
  have hfresh : ∀ (f0 : settingsFrame), f0.Other = none →
      ∀ p ∈ o.getD [], otherGet f0.Other p.1 = none := by
    intro f0 h0 p hp
    rw [h0]
    rfl
  cases d <;> cases e <;>
    simp only [show ((true = true) = True) from by simp,
               show ((false = true) = False) from by simp, if_true, if_false,
               List.nil_append, List.cons_append, List.append_nil]
  · exact parsePairs_others _ _ _ _ hnp (hfresh ⟨false, false, none⟩ rfl) hnd
  · rw [parsePairs_cons_ext]
    exact parsePairs_others _ _ _ _ hnp (hfresh _ rfl) hnd
  · rw [parsePairs_cons_dg]
    exact parsePairs_others _ _ _ _ hnp (hfresh _ rfl) hnd
  · rw [parsePairs_cons_dg, parsePairs_cons_ext]
    exact parsePairs_others _ _ _ _ hnp (hfresh _ rfl) hnd

/-- With the declared length equal to the stream length, the size gate
passes and the whole stream is buffered and handed to the settings loop. -/
theorem parseSettingsFrame_exact (s : List Nat) (hs : s.length ≤ 8 * (1 <<< 10)) :
    parseSettingsFrame s s.length
      = (parseSettingsBody s ⟨false, false, none⟩ false false, []) := by
  unfold parseSettingsFrame
  rw [if_neg (show ¬ 8 * (1 <<< 10) < s.length by omega), readFull_exact]

/-- C2: For every frame whose type tag is 0x2, 0x6, 0x8, or 0x9, `ParseNext`
invokes the connection-close operation exactly once, with the "frame
unexpected" application error code and an empty reason string, then returns
a fatal protocol error, and does not read or skip any body bytes afterward
(the stream after the call still starts at the first body byte). -/
theorem parseNext_forbidden_closes_once (hOpt : Option unknownFrameHandlerFunc)
    (t l : Nat) (tail : List Nat)
    (ht : t = 0x2 ∨ t = 0x6 ∨ t = 0x8 ∨ t = 0x9) (hl : l ≤ maxVarInt8) :
    ParseNext hOpt (appendVarint (appendVarint [] t) l ++ tail)
      = ⟨.error (.reservedFrameType t), [(ErrCodeFrameUnexpected, "")], [], tail⟩ := by
  rw [appendVarint_eq_append (appendVarint [] t) l, List.append_assoc]
  rcases ht with h | h | h | h <;> subst h <;>
    (rw [ParseNext.eq_def]
     rw [readVarint_appendVarint _ _ (by decide)]
     dsimp only
     rw [show consultHandler hOpt _ = .go [] from by
       unfold consultHandler
       rw [if_neg (by decide)]]
     dsimp only
     rw [readVarint_appendVarint l tail hl]
     dsimp only
     rw [if_neg (by decide), if_neg (by decide), if_neg (by decide), if_neg (by decide),
         if_pos (by decide)])

theorem parseNext_forbidden_closes_once_witness :
    ParseNext none (appendVarint (appendVarint [] 0x2) 3 ++ [9, 9, 9])
      = ⟨.error (.reservedFrameType 0x2), [(ErrCodeFrameUnexpected, "")], [], [9, 9, 9]⟩ :=
  parseNext_forbidden_closes_once none 0x2 3 [9, 9, 9] (Or.inl rfl) (by decide)

/-- C5: For every GOAWAY frame, parsing reads one varint as the stream
identifier while counting the bytes consumed, and fails with the
inconsistent-length error exactly when that count (the encoded length of the
identifier) differs from the declared length. -/
theorem parseGoAway_length_crosscheck (id l : Nat) (tail : List Nat)
    (hid : id ≤ maxVarInt8) :
    parseGoAwayFrame (appendVarint [] id ++ tail) l
      = (if l = varintLen id then (.ok ⟨id⟩, tail)
         else (.error .inconsistentGoAwayLength, tail)) := by
  unfold parseGoAwayFrame
  rw [readVarint_appendVarint id tail hid]
  dsimp only
  rw [readVarint_appendVarint_consumed id tail hid]
  by_cases hl : l = varintLen id
  · subst hl
    rw [if_neg (by omega), if_pos rfl]
  · rw [if_pos (fun hh => hl hh.symm), if_neg hl]

theorem parseGoAway_length_crosscheck_witness :
    parseGoAwayFrame (appendVarint [] 5 ++ []) 1
      = (if 1 = varintLen 5 then (.ok ⟨5⟩, ([] : List Nat))
         else (.error .inconsistentGoAwayLength, [])) ∧
    parseGoAwayFrame (appendVarint [] 5 ++ []) 2
      = (if 2 = varintLen 5 then (.ok ⟨5⟩, ([] : List Nat))
         else (.error .inconsistentGoAwayLength, [])) :=
  ⟨parseGoAway_length_crosscheck 5 1 [] (by decide),
   parseGoAway_length_crosscheck 5 2 [] (by decide)⟩

/-- C6: For every SETTINGS frame whose declared length is strictly greater
than 8192, parsing fails with the oversized-settings error and the stream is
returned untouched: no body byte is read. -/
theorem parseSettings_oversized_rejected (s : List Nat) (l : Nat)
    (hl : 8 * (1 <<< 10) < l) :
    parseSettingsFrame s l = (.error (.oversizedSettings l), s) := by
  unfold parseSettingsFrame
  rw [if_pos hl]

theorem parseSettings_oversized_rejected_witness :
    parseSettingsFrame [1, 2, 3] 8193 = (.error (.oversizedSettings 8193), [1, 2, 3]) :=
  parseSettings_oversized_rejected [1, 2, 3] 8193 (by decide)

/-- C8: A SETTINGS body read that is cut short by the end of the stream —
here with the declared length exactly at the 8 KiB ceiling — surfaces as the
end-of-stream error `io.EOF`, not as the generic `io.ErrUnexpectedEOF` that
the underlying exact read reports. -/
theorem parseSettings_truncated_eof (s : List Nat) (hne : s ≠ [])
    (hlt : s.length < 8 * (1 <<< 10)) :
    readFull s (8 * (1 <<< 10)) = .error .unexpectedEOF ∧
    parseSettingsFrame s (8 * (1 <<< 10)) = (.error .eof, []) := by
  have h1 : readFull s (8 * (1 <<< 10)) = .error .unexpectedEOF := by
    unfold readFull
    rw [if_neg (by omega), if_neg (by simp only [List.isEmpty_iff]; exact hne)]
  refine ⟨h1, ?_⟩
  unfold parseSettingsFrame
  rw [if_neg (by omega), h1]
  rfl

theorem parseSettings_truncated_eof_witness :
    readFull [0] (8 * (1 <<< 10)) = .error .unexpectedEOF ∧
    parseSettingsFrame [0] (8 * (1 <<< 10)) = (.error .eof, []) :=
  parseSettings_truncated_eof [0] (by simp) (by decide)

/-- C7 counterexample: a handler that reports hijacked together with an
error of its own.  On a failed type-tag read (empty stream, `io.EOF`) the
dispatcher returns the handler's error — neither the `errHijacked` sentinel
the claim promises for a hijack report, nor the original read error. -/
theorem parseNext_tag_read_error_cex :
    ParseNext (some (fun _ _ => (true, some (Err.custom 3)))) []
      = ⟨.error (Err.custom 3), [], [(0, some Err.eof)], []⟩ ∧
    Err.custom 3 ≠ Err.hijacked ∧ Err.custom 3 ≠ Err.eof :=
  ⟨by rw [ParseNext.eq_def]; rfl, by decide, by decide⟩

/-- C7 (amended): when reading the type tag fails and an unknown-frame
handler is registered, `ParseNext` invokes it with type 0 and the read error
(the call is recorded); if the handler returns a non-nil error, that error is
returned; otherwise, if the handler reports hijacked, the distinguished
`errHijacked` sentinel is returned; otherwise the original read error is
propagated. -/
theorem parseNext_tag_read_error_dispatch (h : unknownFrameHandlerFunc)
    (s : List Nat) (e : Err) (hij : Bool) (eOpt : Option Err)
    (hread : readVarint s = .error e) (hh : h 0 (some e) = (hij, eOpt)) :
    ParseNext (some h) s
      = ⟨.error (eOpt.getD (if hij then Err.hijacked else e)), [], [(0, some e)], []⟩ := by
  cases eOpt <;> cases hij <;>
    (rw [ParseNext.eq_def, hread]
     dsimp only
     rw [hh]
     rfl)

theorem parseNext_tag_read_error_dispatch_witness :
    ParseNext (some (fun _ _ => (true, none))) []
      = ⟨.error ((none : Option Err).getD (if true then Err.hijacked else Err.eof)),
         [], [(0, some Err.eof)], []⟩ ∧
    ParseNext (some (fun _ _ => (false, none))) []
      = ⟨.error ((none : Option Err).getD (if false then Err.hijacked else Err.eof)),
         [], [(0, some Err.eof)], []⟩ ∧
    ParseNext (some (fun _ _ => (false, some (Err.custom 5)))) []
      = ⟨.error ((some (Err.custom 5)).getD (if false then Err.hijacked else Err.eof)),
         [], [(0, some Err.eof)], []⟩ :=
  ⟨parseNext_tag_read_error_dispatch (fun _ _ => (true, none)) [] Err.eof true none rfl rfl,
   parseNext_tag_read_error_dispatch (fun _ _ => (false, none)) [] Err.eof false none rfl rfl,
   parseNext_tag_read_error_dispatch (fun _ _ => (false, some (Err.custom 5))) [] Err.eof
     false (some (Err.custom 5)) rfl rfl⟩

/-- C9: A non-nil error returned by the unknown-frame handler is what
`ParseNext` returns, on both call sites: it replaces the original read error
on the tag-read-failure path, and it takes precedence over the hijacked flag
on the extension-type path (the `hij` result component is arbitrary in both
parts, so `errHijacked` is returned only when the handler reports hijacked
together with a nil error). -/
theorem parseNext_handler_error_precedence :
    (∀ (h : unknownFrameHandlerFunc) (s : List Nat) (e : Err) (hij : Bool) (e2 : Err),
      readVarint s = .error e → h 0 (some e) = (hij, some e2) →
      ParseNext (some h) s = ⟨.error e2, [], [(0, some e)], []⟩) ∧
    (∀ (h : unknownFrameHandlerFunc) (t : Nat) (s1 s : List Nat) (hij : Bool) (e2 : Err),
      readVarint s = .ok (t, s1) → 0xd < t → h t none = (hij, some e2) →
      ParseNext (some h) s = ⟨.error e2, [], [(t, none)], s1⟩) := by
  constructor
  · intro h s e hij e2 hread hh
    rw [ParseNext.eq_def, hread]
    dsimp only
    rw [hh]
    cases hij <;> rfl
  · intro h t s1 s hij e2 hread ht hh
    rw [ParseNext.eq_def, hread]
    dsimp only
    rw [show consultHandler (some h) t = .ret (.error e2) [(t, none)] from by
      unfold consultHandler
      rw [if_pos ht]
      dsimp only
      rw [hh]
      cases hij <;> rfl]

theorem parseNext_handler_error_precedence_witness :
    ParseNext (some (fun _ _ => (true, some (Err.custom 7)))) []
      = ⟨.error (Err.custom 7), [], [(0, some Err.eof)], []⟩ ∧
    ParseNext (some (fun _ _ => (true, some (Err.custom 9)))) [0x20, 0x00]
      = ⟨.error (Err.custom 9), [], [(0x20, none)], [0x00]⟩ :=
  ⟨parseNext_handler_error_precedence.1 (fun _ _ => (true, some (Err.custom 7)))
      [] Err.eof true (Err.custom 7) rfl rfl,
   parseNext_handler_error_precedence.2 (fun _ _ => (true, some (Err.custom 9)))
      0x20 [0x00] [0x20, 0x00] true (Err.custom 9)
      (readVarint_cons1 (by decide) [0x00]) (by decide) rfl⟩

/-- C1: A frame whose type is one of the reserved-but-unused types 0x3, 0x5,
0xd, or an extension type above 0xd that no handler claims (none registered,
or the registered one declines with no error), is skipped: exactly the
declared `l` body bytes are discarded and parsing continues at the next
frame boundary, so the result, the close calls and the final stream position
are those of parsing the rest — the skipped frame is never returned as a
value, and any value eventually returned is a Data, Headers, Settings or
GoAway frame. -/
theorem parseNext_skips_unknown_and_reserved (hOpt : Option unknownFrameHandlerFunc)
    (t l : Nat) (body tail : List Nat)
    (ht : t = 0x3 ∨ t = 0x5 ∨ t = 0xd ∨ 0xd < t)
    (hcb : ∀ h, hOpt = some h → 0xd < t → h t none = (false, none))
    (ht62 : t ≤ maxVarInt8) (hl62 : l ≤ maxVarInt8)
    (hbody : body.length = l) :
    (ParseNext hOpt (appendVarint (appendVarint [] t) l ++ (body ++ tail))).result
        = (ParseNext hOpt tail).result ∧
    (ParseNext hOpt (appendVarint (appendVarint [] t) l ++ (body ++ tail))).closeCalls
        = (ParseNext hOpt tail).closeCalls ∧
    (ParseNext hOpt (appendVarint (appendVarint [] t) l ++ (body ++ tail))).rest
        = (ParseNext hOpt tail).rest ∧
    (∀ fr : frame, (ParseNext hOpt tail).result = .ok fr →
      (∃ df, fr = .data df) ∨ (∃ hf, fr = .headers hf) ∨
      (∃ sf, fr = .settings sf) ∨ (∃ gf, fr = .goAway gf)) := by
  have hch : ∃ cs, consultHandler hOpt t = .go cs := by
    unfold consultHandler
    by_cases h13 : 0xd < t
    · rw [if_pos h13]
      cases hOpt with
      | none => exact ⟨[], rfl⟩
      | some h =>
        dsimp only
        rw [hcb h rfl h13]
        exact ⟨[(t, none)], rfl⟩
    · rw [if_neg h13]
      exact ⟨[], rfl⟩
  obtain ⟨cs, hch⟩ := hch
  have h0 : ¬ t = 0x0 := by rcases ht with h | h | h | h <;> omega
  have h1 : ¬ t = 0x1 := by rcases ht with h | h | h | h <;> omega
  have h4 : ¬ t = 0x4 := by rcases ht with h | h | h | h <;> omega
  have h7 : ¬ t = 0x7 := by rcases ht with h | h | h | h <;> omega
  have hforb : ¬ (t = 0x2 ∨ t = 0x6 ∨ t = 0x8 ∨ t = 0x9) := by
    rcases ht with h | h | h | h <;> omega
  have hmain : ParseNext hOpt (appendVarint (appendVarint [] t) l ++ (body ++ tail))
      = ⟨(ParseNext hOpt tail).result, (ParseNext hOpt tail).closeCalls,
         cs ++ (ParseNext hOpt tail).handlerCalls, (ParseNext hOpt tail).rest⟩ := by
    rw [appendVarint_eq_append (appendVarint [] t) l, List.append_assoc]
    rw [ParseNext.eq_def]
    rw [readVarint_appendVarint t _ ht62]
    dsimp only
    rw [hch]
    dsimp only
    rw [readVarint_appendVarint l _ hl62]
    dsimp only
    rw [if_neg h0, if_neg h1, if_neg h4, if_neg h7, if_neg hforb,
        if_pos (show l ≤ (body ++ tail).length by
          rw [List.length_append]
          omega),
        show (body ++ tail).drop l = tail from by
          rw [← hbody]
          exact List.drop_left body tail]
  rw [hmain]
  refine ⟨rfl, rfl, rfl, ?_⟩
  intro fr _
  cases fr with
  | data df => exact Or.inl ⟨df, rfl⟩
  | headers hf => exact Or.inr (Or.inl ⟨hf, rfl⟩)
  | settings sf => exact Or.inr (Or.inr (Or.inl ⟨sf, rfl⟩))
  | goAway gf => exact Or.inr (Or.inr (Or.inr ⟨gf, rfl⟩))

theorem parseNext_skips_unknown_and_reserved_witness :
    (ParseNext none (appendVarint (appendVarint [] 0x20) 2 ++ ([9, 9] ++ [0x00, 0x05]))).result
        = (ParseNext none [0x00, 0x05]).result ∧
    (ParseNext none (appendVarint (appendVarint [] 0x20) 2 ++ ([9, 9] ++ [0x00, 0x05]))).closeCalls
        = (ParseNext none [0x00, 0x05]).closeCalls ∧
    (ParseNext none (appendVarint (appendVarint [] 0x20) 2 ++ ([9, 9] ++ [0x00, 0x05]))).rest
        = (ParseNext none [0x00, 0x05]).rest ∧
    (∀ fr : frame, (ParseNext none [0x00, 0x05]).result = .ok fr →
      (∃ df, fr = .data df) ∨ (∃ hf, fr = .headers hf) ∨
      (∃ sf, fr = .settings sf) ∨ (∃ gf, fr = .goAway gf)) :=
  parseNext_skips_unknown_and_reserved none 0x20 2 [9, 9] [0x00, 0x05]
    (Or.inr (Or.inr (Or.inr (by decide))))
    (fun h hh => Option.noConfusion hh) (by decide) (by decide) rfl

/-- C3 counterexample: the body `08 05 08 01` carries key 0x8 twice, yet the
parse fails with the invalid-value error for the first occurrence (value 5
is outside the boolean domain), not with a duplicate-setting error. -/
theorem settings_duplicate_cex :
    parseSettingsBody [0x08, 0x05, 0x08, 0x01] ⟨false, false, none⟩ false false
      = .error (.invalidSettingValue 0x08 0x05) := by
  rw [show ([0x08, 0x05, 0x08, 0x01] : List Nat) = encodePairs [(8, 5), (8, 1)] from rfl]
  rw [parseSettingsBody_encodePairs [(8, 5), (8, 1)] ⟨false, false, none⟩ false false
    (by decide)]
  decide

/-- C3 (amended): for every SETTINGS body whose pairs all fit the varint
domain and whose promoted-key occurrences all carry boolean values (0 or 1),
a repeated key (named or unnamed, equal values or not) makes the settings
loop fail with a duplicate-setting error. -/
theorem settings_duplicate_error_amended (ps : List (Nat × Nat))
    (hb : ∀ p ∈ ps, p.1 ≤ maxVarInt8 ∧ p.2 ≤ maxVarInt8)
    (hv : ∀ p ∈ ps, (p.1 = settingExtendedConnect ∨ p.1 = settingDatagram) →
      p.2 = 0 ∨ p.2 = 1)
    (hdup : ¬ (ps.map Prod.fst).Nodup) :
    ∃ k, parseSettingsBody (encodePairs ps) ⟨false, false, none⟩ false false
      = .error (.duplicateSetting k) := by
  rw [parseSettingsBody_encodePairs ps _ false false hb]
  rcases parsePairs_progress ps _ false false hv with ⟨f', hok⟩ | ⟨k, he⟩
  · exact absurd (parsePairs_ok_nodup ps _ _ _ _ hok) hdup
  · exact ⟨k, he⟩

theorem settings_duplicate_error_amended_witness :
    (¬ (([(0x40, 1), (0x40, 2)] : List (Nat × Nat)).map Prod.fst).Nodup) ∧
    ∃ k, parseSettingsBody (encodePairs [(0x40, 1), (0x40, 2)]) ⟨false, false, none⟩
      false false = .error (.duplicateSetting k) :=
  ⟨by decide,
   settings_duplicate_error_amended [(0x40, 1), (0x40, 2)] (by decide) (by decide) (by decide)⟩

/-- C10: (a) a parsed SETTINGS frame never carries an empty-but-allocated
`Other` map and its `Other` map never contains the promoted keys 0x8 and
0x33; (b) a body holding only the promoted keys parses to an absent (nil)
`Other` map; (c) the encoder treats an absent `Other` map identically to an
empty one. -/
theorem settings_other_map_invariants :
    (∀ (s : List Nat) (l : Nat) (f' : settingsFrame) (rest : List Nat),
        parseSettingsFrame s l = (.ok f', rest) →
        f'.Other ≠ some [] ∧ otherGet f'.Other settingExtendedConnect = none ∧
          otherGet f'.Other settingDatagram = none) ∧
    (∀ (ps : List (Nat × Nat)) (f' : settingsFrame),
        (∀ p ∈ ps, p.1 ≤ maxVarInt8 ∧ p.2 ≤ maxVarInt8) →
        (∀ p ∈ ps, p.1 = settingExtendedConnect ∨ p.1 = settingDatagram) →
        parseSettingsBody (encodePairs ps) ⟨false, false, none⟩ false false = .ok f' →
        f'.Other = none) ∧
    (∀ (d e : Bool) (b : List Nat),
        settingsFrame.Append ⟨d, e, none⟩ b = settingsFrame.Append ⟨d, e, some []⟩ b) := by
  refine ⟨?_, ?_, ?_⟩
  · intro s l f' rest hok
    unfold parseSettingsFrame at hok
    split_ifs at hok with hl
    · exact absurd hok (by simp)
    rcases hrf : readFull s l with e | ⟨buf, rest2⟩ <;> rw [hrf] at hok
    · exact absurd hok (by simp)
    · dsimp only at hok
      simp only [Prod.mk.injEq] at hok
      exact parseSettingsBody_inv hok.1 ⟨by simp, rfl, rfl⟩
  · intro ps f' hb hpk hok
    rw [parseSettingsBody_encodePairs ps _ false false hb] at hok
    exact parsePairs_promoted_only ps _ _ _ _ hpk hok
  · intro d e b
    rfl

theorem settings_other_map_invariants_witness :
    ((⟨false, true, none⟩ : settingsFrame).Other ≠ some [] ∧
      otherGet (⟨false, true, none⟩ : settingsFrame).Other settingExtendedConnect = none ∧
      otherGet (⟨false, true, none⟩ : settingsFrame).Other settingDatagram = none) ∧
    (⟨false, true, none⟩ : settingsFrame).Other = none := by
  have hbody : parseSettingsBody [0x08, 0x01] ⟨false, false, none⟩ false false
      = .ok ⟨false, true, none⟩ := by
    rw [show ([0x08, 0x01] : List Nat) = encodePairs [(8, 1)] from rfl]
    rw [parseSettingsBody_encodePairs [(8, 1)] ⟨false, false, none⟩ false false (by decide)]
    decide
  have hframe : parseSettingsFrame [0x08, 0x01] 2 = (.ok ⟨false, true, none⟩, []) := by
    rw [show (2 : Nat) = ([0x08, 0x01] : List Nat).length from rfl,
        parseSettingsFrame_exact [0x08, 0x01] (by decide), hbody]
  exact ⟨settings_other_map_invariants.1 [0x08, 0x01] 2 ⟨false, true, none⟩ [] hframe,
         settings_other_map_invariants.2.1 [(8, 1)] ⟨false, true, none⟩ (by decide)
           (by decide) (by rw [show encodePairs [(8, 1)] = [0x08, 0x01] from rfl]; exact hbody)⟩

theorem encodePairs_length_uniform (ps : List (Nat × Nat))
    (h : ∀ p ∈ ps, 64 ≤ p.1 ∧ p.1 ≤ 16383 ∧ p.2 ≤ 63) :
    (encodePairs ps).length = 3 * ps.length := by
  induction ps with
  | nil => rfl
  | cons p ps ih =>
    obtain ⟨h1, h2, h3⟩ := h p (List.mem_cons_self _ _)
    rw [encodePairs_cons]
    simp only [List.length_append, List.length_cons]
    rw [appendVarint_length p.1 (by rw [show maxVarInt8 = 4611686018427387903 from rfl]; omega),
        appendVarint_length p.2 (by rw [show maxVarInt8 = 4611686018427387903 from rfl]; omega),
        ih (fun q hq => h q (List.mem_cons_of_mem _ hq))]
    have hv1 : varintLen p.1 = 2 := by
      unfold varintLen
      rw [if_neg (show ¬ p.1 ≤ maxVarInt1 by rw [show maxVarInt1 = 63 from rfl]; omega),
          if_pos (show p.1 ≤ maxVarInt2 by rw [show maxVarInt2 = 16383 from rfl]; omega)]
    have hv2 : varintLen p.2 = 1 := by
      unfold varintLen
      rw [if_pos (show p.2 ≤ maxVarInt1 by rw [show maxVarInt1 = 63 from rfl]; omega)]
    rw [hv1, hv2]
    omega

/-- 4100 distinct two-byte keys with one-byte values: an `Other` map whose
encoding is 12300 bytes, well past the 8 KiB settings ceiling. -/
def cexOther : List (Nat × Nat) := (List.range 4100).map (fun i => (0x40 + i, 0))

theorem cexOther_bounds : ∀ p ∈ cexOther, 64 ≤ p.1 ∧ p.1 ≤ 16383 ∧ p.2 ≤ 63 := by
  intro p hp
  simp only [cexOther, List.mem_map, List.mem_range] at hp
  obtain ⟨i, hi, rfl⟩ := hp
  refine ⟨by omega, by omega, by omega⟩

theorem cexOther_not_promoted :
    ∀ p ∈ cexOther, p.1 ≠ settingExtendedConnect ∧ p.1 ≠ settingDatagram := by
  intro p hp
  simp only [cexOther, List.mem_map, List.mem_range] at hp
  obtain ⟨i, hi, rfl⟩ := hp
  refine ⟨by simp [settingExtendedConnect]; omega, by simp [settingDatagram]; omega⟩

theorem cexOther_nodup : (cexOther.map Prod.fst).Nodup := by
  have : cexOther.map Prod.fst = (List.range 4100).map (fun i => 0x40 + i) := by
    simp [cexOther, List.map_map]
  rw [this]
  exact (List.nodup_range 4100).map (fun a b hab => by omega)

theorem cex_settingsBody_length :
    (settingsBody ⟨false, false, some cexOther⟩).length = 12300 := by
  rw [settingsBody_eq_encodePairs]
  simp only [show ((false = true) = False) from by simp, if_false, List.nil_append]
  dsimp only [Option.getD_some]
  rw [encodePairs_length_uniform cexOther cexOther_bounds]
  simp [cexOther]

/-- C4 counterexample: a Settings value with 4100 unknown settings — no
promoted keys, all keys distinct — whose encoded body is 12300 bytes.
Parsing the encoder output (with the encoded body length as the declared
length) fails with the oversized-settings error instead of returning a
Settings value equal to the input. -/
theorem settings_roundtrip_cex :
    8 * (1 <<< 10) < (settingsBody ⟨false, false, some cexOther⟩).length ∧
    parseSettingsFrame (settingsBody ⟨false, false, some cexOther⟩)
        (settingsBody ⟨false, false, some cexOther⟩).length
      = (.error (.oversizedSettings (settingsBody ⟨false, false, some cexOther⟩).length),
         settingsBody ⟨false, false, some cexOther⟩) := by
  have h : 8 * (1 <<< 10) < (settingsBody ⟨false, false, some cexOther⟩).length := by
    rw [cex_settingsBody_length]
    decide
  refine ⟨h, ?_⟩
  unfold parseSettingsFrame
  rw [if_pos h]

/-- C4 (amended): for every Settings value whose `Other` mapping is a
well-formed varint map (keys and values in the varint domain, keys unique)
holding neither promoted key, and whose encoded body fits the 8 KiB
ceiling, parsing the encoded body (with the encoded body length as the
declared length) succeeds with a Settings value carrying the same datagram
flag, the same extended-connect flag, and the same `Other` mapping (equal
lookups at every key). -/
theorem settings_roundtrip_amended (f : settingsFrame)
    (hb : ∀ p ∈ f.Other.getD [], p.1 ≤ maxVarInt8 ∧ p.2 ≤ maxVarInt8)
    (hnp : ∀ p ∈ f.Other.getD [], p.1 ≠ settingExtendedConnect ∧ p.1 ≠ settingDatagram)
    (hnd : ((f.Other.getD []).map Prod.fst).Nodup)
    (hsize : (settingsBody f).length ≤ 8 * (1 <<< 10)) :
    ∃ f' : settingsFrame,
      parseSettingsFrame (settingsBody f) (settingsBody f).length = (.ok f', []) ∧
      f'.Datagram = f.Datagram ∧ f'.ExtendedConnect = f.ExtendedConnect ∧
      ∀ k, otherGet f'.Other k = otherGet f.Other k := by
  rcases f with ⟨d, e, o⟩
  dsimp only at hb hnp hnd hsize ⊢
  refine ⟨⟨d, e, (o.getD []).foldl (fun acc p => otherInsert acc p.1 p.2) none⟩,
    ?_, rfl, rfl, ?_⟩
  · rw [parseSettingsFrame_exact _ hsize, settingsBody_eq_encodePairs]
    have hball : ∀ p ∈ ((if d then [(settingDatagram, 1)] else []) ++
        (if e then [(settingExtendedConnect, 1)] else []) ++
        (some (o.getD []) : Option (List (Nat × Nat))).getD []),
        p.1 ≤ maxVarInt8 ∧ p.2 ≤ maxVarInt8 := by
      intro p hp
      rcases List.mem_append.1 hp with hp1 | hp2
      · rcases List.mem_append.1 hp1 with hp3 | hp4
        · cases d <;> simp_all
          subst hp3
          decide
        · cases e <;> simp_all
          subst hp4
          decide
      · exact hb p (by simpa using hp2)
    rw [show ((⟨d, e, o⟩ : settingsFrame).Other.getD []) = o.getD [] from rfl] at *
    rw [parseSettingsBody_encodePairs _ _ _ _ (by simpa using hball)]
    rw [parsePairs_flags_others d e o hnp hnd]
  · intro k
    rw [otherGet_foldl_insert (o.getD []) none hnd (fun p hp => rfl) k]
    cases o with
    | none => rfl
    | some l => rfl

theorem settings_roundtrip_amended_witness :
    ∃ f' : settingsFrame,
      parseSettingsFrame (settingsBody ⟨true, false, some [(0x40, 7)]⟩)
          (settingsBody ⟨true, false, some [(0x40, 7)]⟩).length = (.ok f', []) ∧
      f'.Datagram = (⟨true, false, some [(0x40, 7)]⟩ : settingsFrame).Datagram ∧
      f'.ExtendedConnect = (⟨true, false, some [(0x40, 7)]⟩ : settingsFrame).ExtendedConnect ∧
      ∀ k, otherGet f'.Other k
        = otherGet (⟨true, false, some [(0x40, 7)]⟩ : settingsFrame).Other k :=
  settings_roundtrip_amended ⟨true, false, some [(0x40, 7)]⟩
    (by decide) (by decide) (by decide) (by decide)

end Http3
